import Mathlib

/-!
Verification of the Scanax backend (`backend/main.py`) trust and consistency
layer: the `/analyze` result validator, the `/fix` request handling, and the
dependency-manifest classifier of `/scan-dependencies`.

The Python code is shallowly embedded.  JSON values produced by `json.loads`
are modelled by `JVal` (numbers as exact rationals, which faithfully order and
compare every decimal literal the parser accepts).  Dynamically-typed Python
operations that can raise (`dict.get` on a non-dict, `<` between a string and
an int, hashing an unhashable key) are modelled by `Except PyErr`; an escaping
exception corresponds to the endpoint's `except Exception` handler returning
an HTTP 500.  The external Groq reasoning engine is an opaque collaborator and
is modelled as a function parameter from the prompt string to the raw response
string; each embedded endpoint also returns the list of prompts it sent to the
engine, so that claims about "how many engine calls were made" are statable.
-/

/-- Python whitespace as stripped by `str.strip()`. -/
def isPyWs (c : Char) : Bool :=
  c = ' ' || c = '\t' || c = '\n' || c = '\r' || c = '\x0b' || c = '\x0c'

/-- Model of Python `str.strip()`: drop leading and trailing whitespace. -/
def pyStrip (s : String) : String :=
  String.mk (((s.toList.dropWhile isPyWs).reverse.dropWhile isPyWs).reverse)

/-- Model of Python `str.split('\n')` on the underlying character list:
splits at every newline, keeping empty pieces; the empty string yields
one empty piece. -/
def splitNL : List Char → List (List Char)
  | [] => [[]]
  | c :: rest =>
    match splitNL rest, decide (c = '\n') with
    | r, true => [] :: r
    | [], false => [[c]]
    | h :: t, false => (c :: h) :: t

/-- Model of Python `code.split('\n')` (used for line counting, context
slicing and the manifest heuristics in `backend/main.py`). -/
def pySplitLines (s : String) : List String :=
  (splitNL s.toList).map (fun cs => String.mk cs)

/-- `leadsWith needle hay` is true iff `needle` is an initial run of `hay`
(models Python `str.startswith`). -/
def leadsWith : List Char → List Char → Bool
  | [], _ => true
  | _ :: _, [] => false
  | n :: ns, h :: hs => decide (n = h) && leadsWith ns hs

/-- `hasInfix needle hay` is true iff `needle` occurs contiguously in `hay`
(models the Python substring test `needle in hay`). -/
def hasInfix (needle : List Char) : List Char → Bool
  | [] => leadsWith needle []
  | c :: rest => leadsWith needle (c :: rest) || hasInfix needle rest

/-- Model of the Python substring operator `needle in hay` for strings. -/
def strContains (hay needle : String) : Bool :=
  hasInfix needle.toList hay.toList

/-- JSON values as returned by `json.loads`: numbers are kept as exact
rationals (every decimal literal is exactly representable, so order and
equality agree with Python's). -/
inductive JVal where
  | null
  | bool (b : Bool)
  | num (q : ℚ)
  | str (s : String)
  | arr (elems : List JVal)
  | obj (fields : List (String × JVal))

/-- Exceptions the embedded Python fragments can raise.  The message strings
are abridged models of CPython's wording; no claim depends on them.  The
`httpExc` constructor models `fastapi.HTTPException`, whose `str()` is
`"{status_code}: {detail}"`. -/
inductive PyErr where
  | typeError (msg : String)
  | attributeError (msg : String)
  | keyError (msg : String)
  | jsonDecodeError (msg : String)
  | validationError (msg : String)
  | httpExc (status : Nat) (detail : String)

/-- `str(e)` for an exception reaching an `except Exception` handler. -/
def pyErrStr : PyErr → String
  | .typeError m => m
  | .attributeError m => m
  | .keyError m => m
  | .jsonDecodeError m => m
  | .validationError m => m
  | .httpExc s d => toString s ++ (": ") ++ d

/-- Python numeric view of a JSON value: `bool` is an `int` subclass in
Python, so `True`/`False` compare as `1`/`0`; everything else is not
comparable with a number (`<` raises `TypeError`). -/
def pyNumVal : JVal → Option ℚ
  | .num q => some q
  | .bool b => some (if b then 1 else 0)
  | _ => none

/-- Python `==`-normalisation for hashable scalars: `True == 1 == 1.0`, so a
bool key coincides with the corresponding number key. -/
def pyNorm : JVal → JVal
  | .bool b => .num (if b then 1 else 0)
  | v => v

/-- Whether the value is hashable in Python (lists and dicts are not). -/
def JVal.hashable : JVal → Bool
  | .arr _ => false
  | .obj _ => false
  | _ => true

/-- Boolean equality on (normalised) scalar values; this is Python `==`
restricted to the hashable scalars that can appear as parts of a `seen`
key in the validator. -/
def scalarBeq : JVal → JVal → Bool
  | .null, .null => true
  | .bool a, .bool b => decide (a = b)
  | .num a, .num b => decide (a = b)
  | .str a, .str b => decide (a = b)
  | _, _ => false

/-- Replace-or-append insertion into an association list, modelling Python
dict item assignment (position preserved on overwrite, appended when new). -/
def objInsert (fs : List (String × JVal)) (k : String) (v : JVal) :
    List (String × JVal) :=
  if fs.any (fun p => p.1 = k) then
    fs.map (fun p => if p.1 = k then (k, v) else p)
  else fs ++ [(k, v)]

/-- Model of `d.get(key, default)`: raises `AttributeError` when the receiver
is not a dict (e.g. a string element inside the `errors` array). -/
def pyGet (v : JVal) (k : String) (d : JVal) : Except PyErr JVal :=
  match v with
  | .obj fs =>
    match fs.find? (fun p => p.1 = k) with
    | some p => .ok p.2
    | none => .ok d
  | _ => .error (.attributeError ("object has no attribute get"))

/-- Model of Python `key in value`: dict key membership, list element
membership (comparing with string elements), substring test on strings;
raises `TypeError` otherwise. -/
def pyContainsKey (v : JVal) (k : String) : Except PyErr Bool :=
  match v with
  | .obj fs => .ok (fs.any (fun p => p.1 = k))
  | .arr xs => .ok (xs.any (fun x => scalarBeq (pyNorm x) (.str k)))
  | .str s => .ok (strContains s k)
  | _ => .error (.typeError ("argument of type is not iterable"))

/-- Model of `value[key]` with a string key: dict lookup (`KeyError` when
missing, unreachable after a successful `in` test); `TypeError` on any
non-dict receiver (list and str reject string indices). -/
def pySubscript (v : JVal) (k : String) : Except PyErr JVal :=
  match v with
  | .obj fs =>
    match fs.find? (fun p => p.1 = k) with
    | some p => .ok p.2
    | none => .error (.keyError k)
  | .arr _ => .error (.typeError ("list indices must be integers"))
  | .str _ => .error (.typeError ("string indices must be integers"))
  | _ => .error (.typeError ("object is not subscriptable"))

/-- Model of `for x in value`: lists iterate their elements, strings their
characters, dicts their keys; other values raise `TypeError`. -/
def pyIterate (v : JVal) : Except PyErr (List JVal) :=
  match v with
  | .arr xs => .ok xs
  | .str s => .ok (s.toList.map (fun c => .str (String.mk [c])))
  | .obj fs => .ok (fs.map (fun p => .str p.1))
  | _ => .error (.typeError ("object is not iterable"))

/-- Model of `value[key] = x`: dict item assignment; `TypeError` on any
other receiver. -/
def pySetKey (v : JVal) (k : String) (x : JVal) : Except PyErr JVal :=
  match v with
  | .obj fs => .ok (.obj (objInsert fs k x))
  | _ => .error (.typeError ("object does not support item assignment"))

/-! ## Model of `json.loads`

A recursive-descent parser for the JSON fragment the endpoints exchange:
objects, arrays, strings (with the common escapes), decimal numbers with an
optional fraction, `true`/`false`/`null`.  Any other input — in particular a
response wrapped in Markdown code fences, which starts with a backtick —
yields a `JSONDecodeError`, exactly as `json.loads` does.  Duplicate object
keys follow Python semantics (the last occurrence wins, position preserved).
Exponents, `NaN`/`Infinity`, `\u` escapes and leading-zero rejection are
outside the fragment exercised here and are not modelled. -/

/-- JSON whitespace. -/
def isJsonWs (c : Char) : Bool :=
  c = ' ' || c = '\t' || c = '\n' || c = '\r'

/-- Drop leading JSON whitespace. -/
def skipWs : List Char → List Char
  | [] => []
  | c :: cs => if isJsonWs c then skipWs cs else c :: cs

/-- Parse the body of a JSON string after the opening quote, handling the
escapes `\" \\ \/ \n \t \r`; returns the string and the rest of the input. -/
def parseStringBody : List Char → Option (String × List Char)
  | [] => none
  | '"' :: cs => some ("", cs)
  | '\\' :: cs =>
    match cs with
    | [] => none
    | c :: cs' =>
      let esc : Option Char :=
        if c = '"' then some '"'
        else if c = '\\' then some '\\'
        else if c = '/' then some '/'
        else if c = 'n' then some '\n'
        else if c = 't' then some '\t'
        else if c = 'r' then some '\r'
        else none
      match esc with
      | none => none
      | some e =>
        match parseStringBody cs' with
        | none => none
        | some (s, r) => some (String.mk (e :: s.toList), r)
  | c :: cs =>
    match parseStringBody cs with
    | none => none
    | some (s, r) => some (String.mk (c :: s.toList), r)

/-- Decimal digits to a natural number. -/
def digitsToNat (ds : List Char) : Nat :=
  ds.foldl (fun n c => 10 * n + (c.toNat - ('0').toNat)) 0

/-- Parse an unsigned JSON number (integer with optional fraction) into an
exact rational. -/
def parseUNumber (cs : List Char) : Option (ℚ × List Char) :=
  let ds := cs.takeWhile Char.isDigit
  let rest := cs.dropWhile Char.isDigit
  if ds.isEmpty then none
  else
    match rest with
    | '.' :: r =>
      let fs := r.takeWhile Char.isDigit
      let r2 := r.dropWhile Char.isDigit
      if fs.isEmpty then none
      else
        some (mkRat (digitsToNat ds * 10 ^ fs.length + digitsToNat fs)
          (10 ^ fs.length), r2)
    | _ => some (mkRat (digitsToNat ds) 1, rest)

/-- Parse a JSON number with optional leading minus sign. -/
def parseNumber (cs : List Char) : Option (ℚ × List Char) :=
  match cs with
  | '-' :: r =>
    match parseUNumber r with
    | none => none
    | some (q, rest) => some (-q, rest)
  | _ => parseUNumber cs

mutual

/-- Parse one JSON value (fuel-indexed to bound the recursion; the top-level
entry point supplies more fuel than any input can consume). -/
def parseVal : Nat → List Char → Option (JVal × List Char)
  | 0, _ => none
  | fuel + 1, cs =>
    match skipWs cs with
    | '\x7b' :: rest =>
      match skipWs rest with
      | '\x7d' :: r2 => some (.obj [], r2)
      | cs' => parseObjItems fuel cs' []
    | '[' :: rest =>
      match skipWs rest with
      | ']' :: r2 => some (.arr [], r2)
      | cs' => parseArrItems fuel cs' []
    | '"' :: rest =>
      match parseStringBody rest with
      | none => none
      | some (s, r) => some (.str s, r)
    | 't' :: 'r' :: 'u' :: 'e' :: rest => some (.bool true, rest)
    | 'f' :: 'a' :: 'l' :: 's' :: 'e' :: rest => some (.bool false, rest)
    | 'n' :: 'u' :: 'l' :: 'l' :: rest => some (.null, rest)
    | cs' =>
      match parseNumber cs' with
      | none => none
      | some (q, r) => some (.num q, r)

/-- Parse the members of a JSON object after `{`, accumulating fields with
last-occurrence-wins duplicate keys. -/
def parseObjItems (fuel : Nat) (cs : List Char)
    (acc : List (String × JVal)) : Option (JVal × List Char) :=
  match fuel with
  | 0 => none
  | fuel + 1 =>
    match skipWs cs with
    | '"' :: rest =>
      match parseStringBody rest with
      | none => none
      | some (k, r1) =>
        match skipWs r1 with
        | ':' :: r2 =>
          match parseVal fuel r2 with
          | none => none
          | some (v, r3) =>
            let acc' := objInsert acc k v
            match skipWs r3 with
            | ',' :: r4 => parseObjItems fuel r4 acc'
            | '\x7d' :: r4 => some (.obj acc', r4)
            | _ => none
        | _ => none
    | _ => none

/-- Parse the elements of a JSON array after `[`. -/
def parseArrItems (fuel : Nat) (cs : List Char)
    (acc : List JVal) : Option (JVal × List Char) :=
  match fuel with
  | 0 => none
  | fuel + 1 =>
    match parseVal fuel cs with
    | none => none
    | some (v, r1) =>
      let acc' := acc ++ [v]
      match skipWs r1 with
      | ',' :: r2 => parseArrItems fuel r2 acc'
      | ']' :: r2 => some (.arr acc', r2)
      | _ => none

end

/-- Model of `json.loads`: parse one JSON document, requiring only trailing
whitespace after it; anything else raises `json.JSONDecodeError`. -/
def jsonLoads (s : String) : Except PyErr JVal :=
  match parseVal (s.toList.length + 1) s.toList with
  | some (v, rest) =>
    match skipWs rest with
    | [] => .ok v
    | _ => .error (.jsonDecodeError ("Extra data"))
  | none => .error (.jsonDecodeError ("Expecting value"))

/-! ## The `/analyze` endpoint (`analyze_code`, `backend/main.py` 172-222)

The validation loop (lines 196-217) walks the raw `errors` array:
```
line = error.get("line", 0)
if line < 1 or line > total_lines: continue
key = (line, error.get("message", ""))
if key in seen: continue
seen.add(key)
validated_errors.append(error)
if len(validated_errors) >= 10: break
```
`error.get` raises `AttributeError` on a non-dict element; `line < 1` raises
`TypeError` when `line` is not a number (bools count as numbers in Python);
`key in seen` raises `TypeError` when the message is unhashable.  Any raised
exception escapes to the endpoint's `except Exception` handler, which turns
the whole request into an HTTP 500. -/

/-- Python `==` on a `(line, message)` key pair (components are hashable
scalars, normalised so that `True == 1 == 1.0`). -/
def pairBeq (a b : JVal × JVal) : Bool :=
  scalarBeq a.1 b.1 && scalarBeq a.2 b.2

/-- Membership of a key in the `seen` set, by Python equality. -/
def keyMem (k : JVal × JVal) (seen : List (JVal × JVal)) : Bool :=
  seen.any (fun s => pairBeq s k)

/-- The validation loop of `analyze_code` (lines 199-215), including the
10-result cap.  `seen` accumulates normalised keys, `acc` the retained raw
entries in reverse order. -/
def validateLoop (totalLines : ℚ) :
    List JVal → List (JVal × JVal) → List JVal → Except PyErr (List JVal)
  | [], _, acc => .ok acc.reverse
  | e :: rest, seen, acc =>
    match pyGet e ("line") (.num 0) with
    | .error err => .error err
    | .ok line =>
      match pyNumVal line with
      | none =>
        .error (.typeError ("not supported between instances of str and int"))
      | some q =>
        if q < 1 ∨ q > totalLines then validateLoop totalLines rest seen acc
        else
          match pyGet e ("message") (.str "") with
          | .error err => .error err
          | .ok msg =>
            if line.hashable && msg.hashable then
              let key := (pyNorm line, pyNorm msg)
              if keyMem key seen then validateLoop totalLines rest seen acc
              else
                let acc' := e :: acc
                if 10 ≤ acc'.length then .ok acc'.reverse
                else validateLoop totalLines rest (key :: seen) acc'
            else .error (.typeError ("unhashable type"))

/-- The validator on a raw `errors` array, as `/analyze` runs it. -/
def validateErrors (errs : List JVal) (totalLines : ℚ) :
    Except PyErr (List JVal) :=
  validateLoop totalLines errs [] []

/-- The same loop without the 10-result cap: the full sequence of valid
(in-range, first-occurrence) findings.  This is a specification-side
reference used to state the cap property; it is not part of the source. -/
def validateLoopNoCap (totalLines : ℚ) :
    List JVal → List (JVal × JVal) → List JVal → Except PyErr (List JVal)
  | [], _, acc => .ok acc.reverse
  | e :: rest, seen, acc =>
    match pyGet e ("line") (.num 0) with
    | .error err => .error err
    | .ok line =>
      match pyNumVal line with
      | none =>
        .error (.typeError ("not supported between instances of str and int"))
      | some q =>
        if q < 1 ∨ q > totalLines then validateLoopNoCap totalLines rest seen acc
        else
          match pyGet e ("message") (.str "") with
          | .error err => .error err
          | .ok msg =>
            if line.hashable && msg.hashable then
              let key := (pyNorm line, pyNorm msg)
              if keyMem key seen then validateLoopNoCap totalLines rest seen acc
              else validateLoopNoCap totalLines rest (key :: seen) (e :: acc)
            else .error (.typeError ("unhashable type"))

/-- All valid findings of a raw `errors` array, without the cap
(specification-side reference for the cap claim). -/
def validFindings (errs : List JVal) (totalLines : ℚ) :
    Except PyErr (List JVal) :=
  validateLoopNoCap totalLines errs [] []

/-- Lines 193-219 of `analyze_code`, after `json.loads` succeeded: validate
and filter the result when it has an `errors` key, and return it unchanged
otherwise. -/
def analyzePost (result : JVal) (totalLines : ℚ) : Except PyErr JVal :=
  match pyContainsKey result ("errors") with
  | .error e => .error e
  | .ok false => .ok result
  | .ok true =>
    match pySubscript result ("errors") with
    | .error e => .error e
    | .ok errsVal =>
      match pyIterate errsVal with
      | .error e => .error e
      | .ok errs =>
        match validateErrors errs totalLines with
        | .error e => .error e
        | .ok validated =>
          match pySetKey result ("errors") (.arr validated) with
          | .error e => .error e
          | .ok r => .ok r

/-- An embedded endpoint's outcome: the HTTP-level response (`.ok` body or
`.error (status, detail)`), together with the list of prompts sent to the
reasoning engine during the request. -/
structure EndpointResult (α : Type) where
  response : Except (Nat × String) α
  enginePrompts : List String

/-- HTTP status of an error response, `none` on success. -/
def statusOf {α : Type} : Except (Nat × String) α → Option Nat
  | .error p => some p.1
  | .ok _ => none

/-- Whether the response is a client error (4xx). -/
def isClientError {α : Type} : Except (Nat × String) α → Bool
  | .error p => decide (400 ≤ p.1 ∧ p.1 < 500)
  | .ok _ => false

/-- The user prompt `/analyze` sends to the engine (line 188). -/
def analyzeUserPrompt (code : String) : String :=
  ("Analyze this code and return json results:\n") ++ code

/-- `total_lines = len(body.code.split('\n'))` (lines 180-181). -/
def numLines (code : String) : Nat :=
  (pySplitLines code).length

/-- The `/analyze` endpoint (lines 172-222): blank code short-circuits to
`{"errors": []}` with no engine call; otherwise the engine is invoked, its
response parsed and validated, and any exception is converted to a 500 by
the `except Exception` handler. -/
def analyze_code (engine : String → String) (code : String) :
    EndpointResult JVal :=
  if pyStrip code = "" then ⟨.ok (.obj [(("errors"), .arr [])]), []⟩
  else
    let totalLines : ℚ := mkRat (numLines code) 1
    let raw := engine (analyzeUserPrompt code)
    match jsonLoads raw with
    | .error e => ⟨.error (500, pyErrStr e), [analyzeUserPrompt code]⟩
    | .ok result =>
      match analyzePost result totalLines with
      | .ok r => ⟨.ok r, [analyzeUserPrompt code]⟩
      | .error e => ⟨.error (500, pyErrStr e), [analyzeUserPrompt code]⟩

/-! ## The `/fix` endpoint (`fix_vulnerability`, `backend/main.py` 224-274) -/

/-- Request body of `/fix`. -/
structure FixRequest where
  original_code : String
  vulnerability_description : String
  user_key : Option String
  vulnerability_line : Option Int

/-- Response model of `/fix` (pydantic `FixResponse`). -/
structure FixResponse where
  fixed_code : String
  explanation : String

/-- Python f-string rendering of the optional line number. -/
def fmtOptInt : Option Int → String
  | none => ("None")
  | some n => toString n

/-- `vuln_line_idx = (body.vulnerability_line or 1) - 1` (line 240): `None`
and `0` are falsy, so both default to line 1, i.e. index 0. -/
def fixLineIdx (vl : Option Int) : Int :=
  (match vl with
   | none => 1
   | some n => if n = 0 then 1 else n) - 1

/-- `lines[start:stop]` for the clamped bounds the endpoint computes
(callers pass `0 ≤ start ≤ stop`). -/
def sliceLines (lines : List String) (start stop : Int) : List String :=
  (lines.drop start.toNat).take (stop.toNat - start.toNat)

/-- `'\n'.join(xs)`. -/
def joinNL : List String → String
  | [] => ""
  | [s] => s
  | s :: rest => s ++ ("\n") ++ joinNL rest

/-- The user prompt `/fix` sends to the engine (lines 247-257).  It is only
built after the line validation, so `0 ≤ fixLineIdx` holds at every call
site and `lines.getD` matches the Python conditional subscript. -/
def fixUserPrompt (body : FixRequest) : String :=
  let lines := pySplitLines body.original_code
  let idx := fixLineIdx body.vulnerability_line
  let startIdx := max 0 (idx - 5)
  let endIdx := min (lines.length : Int) (idx + 6)
  let context := joinNL (sliceLines lines startIdx endIdx)
  ("Fix this vulnerability: ") ++ body.vulnerability_description ++
  ("\n\nVulnerable line ") ++ fmtOptInt body.vulnerability_line ++ (":\n") ++
  (if idx < (lines.length : Int) then lines.getD idx.toNat ("") else ("")) ++
  ("\n\nContext:\n") ++ context

/-- `FixResponse(fixed_code=result.get('fixed_code', ''), explanation=
result.get('explanation', 'Security fix applied'))` (lines 267-270),
including the pydantic type check that both fields are strings. -/
def mkFixResponse (result : JVal) : Except PyErr FixResponse :=
  match pyGet result ("fixed_code") (.str "") with
  | .error e => .error e
  | .ok fc =>
    match pyGet result ("explanation") (.str ("Security fix applied")) with
    | .error e => .error e
    | .ok ex =>
      match fc, ex with
      | .str f, .str e => .ok ⟨f, e⟩
      | _, _ => .error (.validationError ("Input should be a valid string"))

/-- The `try:` block of `fix_vulnerability` (lines 237-270).  Note that the
out-of-range line check `raise`s an `HTTPException(400, ...)` *inside* the
`try`, so it surfaces as a `PyErr` here. -/
def fixTryBody (engine : String → String) (body : FixRequest) :
    Except PyErr FixResponse × List String :=
  let lines := pySplitLines body.original_code
  let idx := fixLineIdx body.vulnerability_line
  if idx < 0 ∨ (lines.length : Int) ≤ idx then
    (.error (.httpExc 400 (("Invalid line number: ") ++
      fmtOptInt body.vulnerability_line)), [])
  else
    let prompt := fixUserPrompt body
    let raw := engine prompt
    match jsonLoads raw with
    | .error e => (.error e, [prompt])
    | .ok result =>
      match mkFixResponse result with
      | .error e => (.error e, [prompt])
      | .ok r => (.ok r, [prompt])

/-- The `/fix` endpoint (lines 224-274).  The empty-code and missing-
description checks sit *outside* the `try` and return 400 directly; every
exception raised inside the `try` — including the `HTTPException(400)` of
the line check, since FastAPI's `HTTPException` derives from `Exception` —
is caught by `except Exception` and re-raised as
`HTTPException(500, f"Fix generation failed: {str(e)}")`. -/
def fix_vulnerability (engine : String → String) (body : FixRequest) :
    EndpointResult FixResponse :=
  if body.original_code = "" ∨ pyStrip body.original_code = "" then
    ⟨.error (400, ("No code provided")), []⟩
  else if body.vulnerability_description = "" then
    ⟨.error (400, ("No vulnerability description provided")), []⟩
  else
    match fixTryBody engine body with
    | (.ok r, log) => ⟨.ok r, log⟩
    | (.error e, log) =>
      ⟨.error (500, ("Fix generation failed: ") ++ pyErrStr e), log⟩

/-! ## The manifest classifier of `/scan-dependencies` (lines 290-311) -/

/-- The dependency-manifest families the endpoint distinguishes. -/
inductive ManifestClass where
  | packageManifest
  | pythonRequirements
  | goModule
  | rubyGemfile
  | none
deriving DecidableEq, Repr

/-- Characters of the regex class `[a-zA-Z0-9\-_]`. -/
def isNameChar (c : Char) : Bool :=
  c.isAlphanum || c = '-' || c = '_'

/-- The operator class `[=<>!]`. -/
def isOpChar (c : Char) : Bool :=
  c = '=' || c = '<' || c = '>' || c = '!'

/-- `re.match(r'^[a-zA-Z0-9\-_]+[=<>!]', s)` as a boolean: a maximal run of
name characters at the start of the string, followed by an operator
character.  Since the two character classes are disjoint, maximal munch
coincides with the regex. -/
def reqLineMatch (s : String) : Bool :=
  let cs := s.toList
  (!(cs.takeWhile isNameChar).isEmpty) &&
  (match cs.dropWhile isNameChar with
   | c :: _ => isOpChar c
   | [] => false)

/-- The file-type detection chain of `scan_dependencies` (lines 290-311):
an `if/elif` cascade, first match wins, `None` when nothing matches.  The
requirements rule inspects `lines[:10]` — the first ten *lines* of the
text, whether or not they are empty. -/
def classify (code : String) : ManifestClass :=
  let lines := pySplitLines code
  if strContains code ("\"dependencies\"") ||
      strContains code ("\"devDependencies\"") then
    .packageManifest
  else if (lines.take 10).any (fun l => reqLineMatch (pyStrip l)) then
    .pythonRequirements
  else if strContains code ("module ") || strContains code ("require ") then
    .goModule
  else if leadsWith (("source ").toList) (pyStrip code).toList ||
      strContains code ("gem ") then
    .rubyGemfile
  else .none

/-! ## Specification-side reference definitions

These definitions follow the wording of the specification (not the source);
they exist to state refinement/correction theorems against the embedded
code. -/

/-- State machine reading one name-or-operator token: accepts exactly the
strings whose head is a non-empty run of name characters followed by an
operator character.  This is the specification-side restatement of the
requirements-line rule, deliberately written as a different algorithm from
`reqLineMatch`. -/
def matchNameOp : List Char → Bool → Bool
  | [], _ => false
  | c :: rest, seenName =>
    if isOpChar c then seenName
    else if isNameChar c then matchNameOp rest true
    else false

/-- Amended python-requirements rule: one of the first ten lines (empty
lines included), after stripping, starts with `name[=<>!]`. -/
def specPyReqRule (code : String) : Bool :=
  ((pySplitLines code).take 10).any
    (fun l => matchNameOp (pyStrip l).toList false)

/-- The classifier's rule table in its fixed priority order, as the
(amended) specification words it. -/
def specRules : List ((String → Bool) × ManifestClass) :=
  [(fun code => strContains code ("\"dependencies\"") ||
      strContains code ("\"devDependencies\""), .packageManifest),
   (specPyReqRule, .pythonRequirements),
   (fun code => strContains code ("module ") ||
      strContains code ("require "), .goModule),
   (fun code => leadsWith (("source ").toList) (pyStrip code).toList ||
      strContains code ("gem "), .rubyGemfile)]

/-- First-match-wins evaluation of a rule table. -/
def firstMatch (code : String) : List ((String → Bool) × ManifestClass) →
    ManifestClass
  | [] => .none
  | (rule, cls) :: rest => if rule code then cls else firstMatch code rest

/-- The classifier as the amended specification describes it: the rule
table evaluated in priority order, first match wins. -/
def specClassify (code : String) : ManifestClass :=
  firstMatch code specRules

/-- The python-requirements rule as claim C8 literally words it: one of the
first ten *non-empty* lines carries the token.  (The code inspects the
first ten lines whether or not they are empty.) -/
def claimPyReqRule (code : String) : Bool :=
  (((pySplitLines code).filter (fun l => l ≠ "")).take 10).any
    (fun l => reqLineMatch (pyStrip l))

/-- The `(line, message)` key of an entry exactly as the validation loop
computes it, when the entry is a dict with hashable components. -/
def keyOf (e : JVal) : Option (JVal × JVal) :=
  match pyGet e ("line") (.num 0), pyGet e ("message") (.str "") with
  | .ok l, .ok m =>
    if l.hashable && m.hashable then some (pyNorm l, pyNorm m) else Option.none
  | _, _ => Option.none

/-- A retained finding's line field exists and is numerically within
`[1, totalLines]` (Python comparison semantics). -/
def entryLineOk (totalLines : ℚ) (e : JVal) : Prop :=
  ∃ v q, pyGet e ("line") (.num 0) = .ok v ∧ pyNumVal v = some q ∧
    1 ≤ q ∧ q ≤ totalLines

/-! ## Engine doubles and request fixtures used in the concrete theorems -/

/-- Engine double answering `{"errors": []}` to every prompt. -/
def engEmptyErrors : String → String := fun _ => "\x7b\"errors\": []\x7d"

/-- Engine double answering one well-formed finding on line 1. -/
def engOneFinding : String → String := fun _ =>
  "\x7b\"errors\": [\x7b\"line\": 1, \"message\": \"ok\"\x7d]\x7d"

/-- Engine double whose first finding has the non-numeric line `"two"`,
followed by a well-formed finding. -/
def engBadLineType : String → String := fun _ =>
  "\x7b\"errors\": [\x7b\"line\": \"two\", \"message\": \"SQLi\"\x7d, \x7b\"line\": 1, \"message\": \"ok\"\x7d]\x7d"

/-- Engine double answering valid JSON that lacks the `errors` key. -/
def engNoErrorsKey : String → String := fun _ => "\x7b\"version\": 2\x7d"

/-- Engine double answering a valid fix payload wrapped in Markdown code
fences. -/
def engFenced : String → String := fun _ =>
  "```json\n\x7b\"fixed_code\": \"x\", \"explanation\": \"y\"\x7d\n```"

/-- The same fix payload without the fences. -/
def fixPayloadBare : String :=
  "\x7b\"fixed_code\": \"x\", \"explanation\": \"y\"\x7d"

/-- Engine double answering a bare well-formed fix payload. -/
def engFixGood : String → String := fun _ =>
  "\x7b\"fixed_code\": \"q = sanitize(s)\", \"explanation\": \"escaped\"\x7d"

/-- A `/fix` request naming line 7 of a two-line file. -/
def bodyLine7 : FixRequest := ⟨"a\nb", "SQL injection", Option.none, some 7⟩

/-- A valid `/fix` request whose engine reply will be code-fenced. -/
def bodyFence : FixRequest :=
  ⟨"q = input()\nrun(q)", "command injection", Option.none, some 2⟩

/-- A `/fix` request that supplies no `vulnerability_line`. -/
def bodyNoLine : FixRequest :=
  ⟨"x = eval(s)", "use of eval", Option.none, Option.none⟩

/-- A raw finding whose line is the non-integral number `5/2 = 2.5`. -/
def entryHalf : JVal :=
  .obj [(("line"), .num (mkRat 5 2)), (("message"), .str "m")]

/-- A raw finding whose line `0` is out of range for every submission. -/
def entryZero : JVal :=
  .obj [(("line"), .num 0), (("message"), .str "m")]

/-- A raw finding whose line field holds a string. -/
def entryBadLine : JVal :=
  .obj [(("line"), .str "two"), (("message"), .str "SQLi")]

/-- Eleven pairwise-distinct valid findings on lines 1..11. -/
def goodsEleven : List JVal :=
  (List.range 11).map
    (fun i => .obj [(("line"), .num (mkRat (i + 1) 1)), (("message"), .str "m")])

/-- Ten blank lines followed by a requirements line: the token sits on the
eleventh physical line, which is the first non-empty line. -/
def blankThenReq : String :=
  "\n\n\n\n\n\n\n\n\n\nrequests==2.31.0"

/-- A well-formed finding on line 1 (used for duplicate-suppression
instances). -/
def entryOne : JVal :=
  .obj [(("line"), .num 1), (("message"), .str "ok")]

/-- A second finding bearing the same `(line, message)` key as `entryOne`
but a different payload (an extra field), exhibiting which duplicate
survives. -/
def entryOneTagged : JVal :=
  .obj [(("line"), .num 1), (("message"), .str "ok"), (("severity"), .str "high")]

/-- Whether an entry bears the key `k` (Python `==` on keys). -/
def keyMatches (k : JVal × JVal) (e : JVal) : Bool :=
  match keyOf e with
  | some ke => pairBeq ke k
  | Option.none => false

/-- The first input entry bearing the key `k`: the first occurrence in
input order of a `(line, message)` pair. -/
def firstWithKey (errs : List JVal) (k : JVal × JVal) : Option JVal :=
  errs.find? (keyMatches k)

/-! ## Helper lemmas -/

/-- Splitting on newlines never yields the empty list (Python
`s.split('\n')` always has at least one piece). -/
theorem splitNL_ne_nil (cs : List Char) : splitNL cs ≠ [] := by
  cases cs with
  | nil => simp [splitNL]
  | cons c rest =>
    rw [splitNL]
    rcases h : splitNL rest with _ | ⟨x, xs⟩ <;> cases hc : decide (c = '\n') <;> simp

/-- Every submission has at least one line. -/
theorem pySplitLines_length_pos (s : String) : 0 < (pySplitLines s).length := by
  rw [pySplitLines, List.length_map]
  rcases h : splitNL s.toList with _ | _
  · exact absurd h (splitNL_ne_nil _)
  · simp

/-- Scalar equality is reflexive on normalised hashable values. -/
theorem scalarBeq_norm_refl (v : JVal) (h : v.hashable = true) :
    scalarBeq (pyNorm v) (pyNorm v) = true := by
  cases v <;> simp_all [JVal.hashable, pyNorm, scalarBeq]

/-- Key equality is reflexive on the keys the loop inserts into `seen`. -/
theorem pairBeq_norm_refl (l m : JVal) (hh : (l.hashable && m.hashable) = true) :
    pairBeq (pyNorm l, pyNorm m) (pyNorm l, pyNorm m) = true := by
  obtain ⟨h1, h2⟩ : l.hashable = true ∧ m.hashable = true := by simpa using hh
  simp [pairBeq, scalarBeq_norm_refl l h1, scalarBeq_norm_refl m h2]

/-- A successful run of the validation loop appends to the already-retained
entries a subsequence of the remaining input: retained findings keep their
original relative order and nothing is ever reordered or synthesised. -/
theorem validateLoop_sublist (t : ℚ) :
    ∀ (errs : List JVal) (seen : List (JVal × JVal)) (acc out : List JVal),
      validateLoop t errs seen acc = .ok out →
      ∃ tail, out = acc.reverse ++ tail ∧ tail.Sublist errs := by
  intro errs
  induction errs with
  | nil =>
    intro seen acc out h
    simp only [validateLoop, Except.ok.injEq] at h
    exact ⟨[], by simp [h], List.Sublist.refl _⟩
  | cons e rest ih =>
    intro seen acc out h
    rw [validateLoop] at h
    cases hg : pyGet e ("line") (.num 0) with
    | error err => simp only [hg] at h; cases h
    | ok line =>
      simp only [hg] at h
      cases hq : pyNumVal line with
      | none => simp only [hq] at h; cases h
      | some q =>
        simp only [hq] at h
        by_cases hr : q < 1 ∨ q > t
        · rw [if_pos hr] at h
          obtain ⟨tail, ho, hs⟩ := ih seen acc out h
          exact ⟨tail, ho, hs.cons e⟩
        · rw [if_neg hr] at h
          cases hm : pyGet e ("message") (.str "") with
          | error err => simp only [hm] at h; cases h
          | ok msg =>
            simp only [hm] at h
            by_cases hh : (line.hashable && msg.hashable) = true
            · rw [if_pos hh] at h
              by_cases hk : keyMem (pyNorm line, pyNorm msg) seen = true
              · rw [if_pos hk] at h
                obtain ⟨tail, ho, hs⟩ := ih seen acc out h
                exact ⟨tail, ho, hs.cons e⟩
              · rw [if_neg hk] at h
                by_cases hlen : 10 ≤ (e :: acc).length
                · rw [if_pos hlen] at h
                  simp only [Except.ok.injEq] at h
                  refine ⟨[e], ?_, ?_⟩
                  · simp [← h]
                  · exact (List.nil_sublist rest).cons₂ e
                · rw [if_neg hlen] at h
                  obtain ⟨tail, ho, hs⟩ :=
                    ih ((pyNorm line, pyNorm msg) :: seen) (e :: acc) out h
                  refine ⟨e :: tail, ?_, hs.cons₂ e⟩
                  simp [ho]
            · rw [if_neg hh] at h; cases h

/-- Every entry the loop retains has a line value that is numerically in
`[1, totalLines]` (the loop skips any entry failing the range test, and
entries whose retained predecessors satisfy it keep satisfying it). -/
theorem validateLoop_lineOk (t : ℚ) :
    ∀ (errs : List JVal) (seen : List (JVal × JVal)) (acc out : List JVal),
      validateLoop t errs seen acc = .ok out →
      (∀ a ∈ acc, entryLineOk t a) →
      ∀ e' ∈ out, entryLineOk t e' := by
  intro errs
  induction errs with
  | nil =>
    intro seen acc out h hacc e' he'
    simp only [validateLoop, Except.ok.injEq] at h
    rw [← h] at he'
    exact hacc e' (List.mem_reverse.mp he')
  | cons e rest ih =>
    intro seen acc out h hacc
    rw [validateLoop] at h
    cases hg : pyGet e ("line") (.num 0) with
    | error err => simp only [hg] at h; cases h
    | ok line =>
      simp only [hg] at h
      cases hq : pyNumVal line with
      | none => simp only [hq] at h; cases h
      | some q =>
        simp only [hq] at h
        by_cases hr : q < 1 ∨ q > t
        · rw [if_pos hr] at h; exact ih seen acc out h hacc
        · rw [if_neg hr] at h
          have hq1 : 1 ≤ q := le_of_not_lt (fun hx => hr (Or.inl hx))
          have hq2 : q ≤ t := le_of_not_lt (fun hx => hr (Or.inr hx))
          have heOk : entryLineOk t e := ⟨line, q, hg, hq, hq1, hq2⟩
          cases hm : pyGet e ("message") (.str "") with
          | error err => simp only [hm] at h; cases h
          | ok msg =>
            simp only [hm] at h
            by_cases hh : (line.hashable && msg.hashable) = true
            · rw [if_pos hh] at h
              by_cases hk : keyMem (pyNorm line, pyNorm msg) seen = true
              · rw [if_pos hk] at h; exact ih seen acc out h hacc
              · rw [if_neg hk] at h
                by_cases hlen : 10 ≤ (e :: acc).length
                · rw [if_pos hlen] at h
                  simp only [Except.ok.injEq] at h
                  intro e' he'
                  rw [← h] at he'
                  rcases List.mem_cons.mp (List.mem_reverse.mp he') with rfl | hmem
                  · exact heOk
                  · exact hacc e' hmem
                · rw [if_neg hlen] at h
                  refine ih ((pyNorm line, pyNorm msg) :: seen) (e :: acc) out h ?_
                  intro a ha
                  rcases List.mem_cons.mp ha with rfl | hmem
                  · exact heOk
                  · exact hacc a hmem
            · rw [if_neg hh] at h; cases h

/-- The keys of the entries a successful loop run retains are pairwise
distinct: the `seen` set suppresses every later duplicate. -/
theorem validateLoop_keys_distinct (t : ℚ) :
    ∀ (errs : List JVal) (seen : List (JVal × JVal)) (acc out : List JVal),
      validateLoop t errs seen acc = .ok out →
      (∀ a ∈ acc, ∃ k, keyOf a = some k ∧ k ∈ seen) →
      (∀ k ∈ seen, pairBeq k k = true) →
      acc.Pairwise (fun a b => keyOf a ≠ keyOf b) →
      out.Pairwise (fun a b => keyOf a ≠ keyOf b) := by
  intro errs
  induction errs with
  | nil =>
    intro seen acc out h hacc hrefl hdist
    simp only [validateLoop, Except.ok.injEq] at h
    rw [← h]
    exact List.pairwise_reverse.mpr (hdist.imp fun hab => Ne.symm hab)
  | cons e rest ih =>
    intro seen acc out h hacc hrefl hdist
    rw [validateLoop] at h
    cases hg : pyGet e ("line") (.num 0) with
    | error err => simp only [hg] at h; cases h
    | ok line =>
      simp only [hg] at h
      cases hq : pyNumVal line with
      | none => simp only [hq] at h; cases h
      | some q =>
        simp only [hq] at h
        by_cases hr : q < 1 ∨ q > t
        · rw [if_pos hr] at h; exact ih seen acc out h hacc hrefl hdist
        · rw [if_neg hr] at h
          cases hm : pyGet e ("message") (.str "") with
          | error err => simp only [hm] at h; cases h
          | ok msg =>
            simp only [hm] at h
            by_cases hh : (line.hashable && msg.hashable) = true
            · rw [if_pos hh] at h
              by_cases hk : keyMem (pyNorm line, pyNorm msg) seen = true
              · rw [if_pos hk] at h; exact ih seen acc out h hacc hrefl hdist
              · rw [if_neg hk] at h
                have hKeyE : keyOf e = some (pyNorm line, pyNorm msg) := by
                  simp [keyOf, hg, hm, hh]
                have hNotIn : ∀ a ∈ acc, keyOf e ≠ keyOf a := by
                  intro a ha hEq
                  obtain ⟨ka, hka, hkaIn⟩ := hacc a ha
                  rw [hKeyE, hka, Option.some.injEq] at hEq
                  have hfalse : pairBeq ka (pyNorm line, pyNorm msg) = false := by
                    rw [keyMem] at hk
                    have hk' : (seen.any fun s =>
                        pairBeq s (pyNorm line, pyNorm msg)) = false :=
                      Bool.eq_false_iff.mpr hk
                    exact Bool.eq_false_iff.mpr (List.any_eq_false.mp hk' ka hkaIn)
                  rw [← hEq] at hfalse
                  rw [pairBeq_norm_refl line msg hh] at hfalse
                  simp at hfalse
                have hPairCons : (e :: acc).Pairwise (fun a b => keyOf a ≠ keyOf b) :=
                  List.pairwise_cons.mpr ⟨hNotIn, hdist⟩
                by_cases hlen : 10 ≤ (e :: acc).length
                · rw [if_pos hlen] at h
                  simp only [Except.ok.injEq] at h
                  rw [← h]
                  exact List.pairwise_reverse.mpr (hPairCons.imp fun hab => Ne.symm hab)
                · rw [if_neg hlen] at h
                  refine ih ((pyNorm line, pyNorm msg) :: seen) (e :: acc) out h ?_ ?_ hPairCons
                  · intro a ha
                    rcases List.mem_cons.mp ha with rfl | hmem
                    · exact ⟨(pyNorm line, pyNorm msg), hKeyE, List.mem_cons_self _ _⟩
                    · obtain ⟨ka, hka, hkaIn⟩ := hacc a hmem
                      exact ⟨ka, hka, List.mem_cons_of_mem _ hkaIn⟩
                  · intro k hkIn
                    rcases List.mem_cons.mp hkIn with rfl | hmem
                    · exact pairBeq_norm_refl line msg hh
                    · exact hrefl k hmem
            · rw [if_neg hh] at h; cases h

/-- Structure of a successful run of the uncapped reference loop. -/
theorem validateLoopNoCap_sublist (t : ℚ) :
    ∀ (errs : List JVal) (seen : List (JVal × JVal)) (acc out : List JVal),
      validateLoopNoCap t errs seen acc = .ok out →
      ∃ tail, out = acc.reverse ++ tail ∧ tail.Sublist errs := by
  intro errs
  induction errs with
  | nil =>
    intro seen acc out h
    simp only [validateLoopNoCap, Except.ok.injEq] at h
    exact ⟨[], by simp [h], List.Sublist.refl _⟩
  | cons e rest ih =>
    intro seen acc out h
    rw [validateLoopNoCap] at h
    cases hg : pyGet e ("line") (.num 0) with
    | error err => simp only [hg] at h; cases h
    | ok line =>
      simp only [hg] at h
      cases hq : pyNumVal line with
      | none => simp only [hq] at h; cases h
      | some q =>
        simp only [hq] at h
        by_cases hr : q < 1 ∨ q > t
        · rw [if_pos hr] at h
          obtain ⟨tail, ho, hs⟩ := ih seen acc out h
          exact ⟨tail, ho, hs.cons e⟩
        · rw [if_neg hr] at h
          cases hm : pyGet e ("message") (.str "") with
          | error err => simp only [hm] at h; cases h
          | ok msg =>
            simp only [hm] at h
            by_cases hh : (line.hashable && msg.hashable) = true
            · rw [if_pos hh] at h
              by_cases hk : keyMem (pyNorm line, pyNorm msg) seen = true
              · rw [if_pos hk] at h
                obtain ⟨tail, ho, hs⟩ := ih seen acc out h
                exact ⟨tail, ho, hs.cons e⟩
              · rw [if_neg hk] at h
                obtain ⟨tail, ho, hs⟩ :=
                  ih ((pyNorm line, pyNorm msg) :: seen) (e :: acc) out h
                refine ⟨e :: tail, ?_, hs.cons₂ e⟩
                simp [ho]
            · rw [if_neg hh] at h; cases h

/-- The capped loop computes exactly the first ten entries of the uncapped
reference loop, whenever the latter completes without raising. -/
theorem validateLoop_eq_take (t : ℚ) :
    ∀ (errs : List JVal) (seen : List (JVal × JVal)) (acc out : List JVal),
      validateLoopNoCap t errs seen acc = .ok out →
      acc.length < 10 →
      validateLoop t errs seen acc = .ok (out.take 10) := by
  intro errs
  induction errs with
  | nil =>
    intro seen acc out h hlt
    simp only [validateLoopNoCap, Except.ok.injEq] at h
    rw [validateLoop, ← h]
    rw [List.take_of_length_le (by simpa using le_of_lt hlt)]
  | cons e rest ih =>
    intro seen acc out h hlt
    rw [validateLoopNoCap] at h
    rw [validateLoop]
    cases hg : pyGet e ("line") (.num 0) with
    | error err => simp only [hg] at h; cases h
    | ok line =>
      simp only [hg] at h ⊢
      cases hq : pyNumVal line with
      | none => simp only [hq] at h; cases h
      | some q =>
        simp only [hq] at h ⊢
        by_cases hr : q < 1 ∨ q > t
        · rw [if_pos hr] at h
          rw [if_pos hr]
          exact ih seen acc out h hlt
        · rw [if_neg hr] at h
          rw [if_neg hr]
          cases hm : pyGet e ("message") (.str "") with
          | error err => simp only [hm] at h; cases h
          | ok msg =>
            simp only [hm] at h ⊢
            by_cases hh : (line.hashable && msg.hashable) = true
            · rw [if_pos hh] at h
              rw [if_pos hh]
              by_cases hk : keyMem (pyNorm line, pyNorm msg) seen = true
              · rw [if_pos hk] at h
                rw [if_pos hk]
                exact ih seen acc out h hlt
              · rw [if_neg hk] at h
                rw [if_neg hk]
                by_cases hlen : 10 ≤ (e :: acc).length
                · rw [if_pos hlen]
                  obtain ⟨tail, ho, -⟩ :=
                    validateLoopNoCap_sublist t rest
                      ((pyNorm line, pyNorm msg) :: seen) (e :: acc) out h
                  have h10 : (e :: acc).reverse.length = 10 := by
                    simp only [List.length_cons] at hlen
                    simp only [List.length_reverse, List.length_cons]
                    omega
                  rw [ho, List.take_append_eq_append_take, h10,
                    List.take_of_length_le (le_of_eq h10), Nat.sub_self,
                    List.take_zero, List.append_nil]
                · rw [if_neg hlen]
                  refine ih ((pyNorm line, pyNorm msg) :: seen) (e :: acc) out h ?_
                  exact Nat.lt_of_not_le hlen
            · rw [if_neg hh] at h; cases h

/-- An operator character is never a name character. -/
theorem opChar_not_nameChar (c : Char) (h : isOpChar c = true) :
    isNameChar c = false := by
  rw [isOpChar] at h
  simp only [Bool.or_eq_true, decide_eq_true_eq] at h
  rcases h with ((h | h) | h) | h <;> subst h <;> decide

/-- The token state machine agrees with the maximal-munch reading of the
regex on every input and start state. -/
theorem matchNameOp_eq (cs : List Char) :
    ∀ seen, matchNameOp cs seen =
      (((!(cs.takeWhile isNameChar).isEmpty) || seen) &&
       (match cs.dropWhile isNameChar with
        | c :: _ => isOpChar c
        | [] => false)) := by
  induction cs with
  | nil => intro seen; simp [matchNameOp]
  | cons c rest ih =>
    intro seen
    by_cases hop : isOpChar c = true
    · have hname : isNameChar c = false := opChar_not_nameChar c hop
      rw [matchNameOp, if_pos hop]
      simp [List.takeWhile_cons, List.dropWhile_cons, hname, hop]
    · by_cases hname : isNameChar c = true
      · rw [matchNameOp, if_neg hop, if_pos hname]
        simp [List.takeWhile_cons, List.dropWhile_cons, hname, ih]
      · rw [matchNameOp, if_neg hop, if_neg hname]
        have hname' : isNameChar c = false := Bool.eq_false_iff.mpr hname
        have hop' : isOpChar c = false := Bool.eq_false_iff.mpr hop
        simp [List.takeWhile_cons, List.dropWhile_cons, hname', hop']

/-- The specification-side token recogniser coincides with the embedded
regex test on every stripped line. -/
theorem reqLineMatch_eq (s : String) :
    matchNameOp s.toList false = reqLineMatch s := by
  rw [matchNameOp_eq s.toList false, reqLineMatch]
  simp

/-- No JSON value starts with a backtick, at any fuel. -/
theorem parseVal_backtick (n : Nat) (cs : List Char) :
    parseVal n ('`' :: cs) = Option.none := by
  cases n with
  | zero => rfl
  | succ m => rfl

/-- `json.loads` rejects any document that begins with a Markdown code
fence. -/
theorem jsonLoads_fenced (tail : String) :
    jsonLoads (("```") ++ tail) = .error (.jsonDecodeError ("Expecting value")) := by
  have hdata : (("```") ++ tail).toList = '`' :: '`' :: '`' :: tail.toList := rfl
  rw [jsonLoads, hdata, parseVal_backtick]

/-- Boolean scalar equality reflects propositional equality. -/
theorem scalarBeq_eq (a b : JVal) (h : scalarBeq a b = true) : a = b := by
  cases a <;> cases b <;> simp_all [scalarBeq]

/-- Boolean key equality reflects propositional equality. -/
theorem pairBeq_eq (k1 k2 : JVal × JVal) (h : pairBeq k1 k2 = true) : k1 = k2 := by
  obtain ⟨h1, h2⟩ : scalarBeq k1.1 k2.1 = true ∧ scalarBeq k1.2 k2.2 = true := by
    simpa [pairBeq] using h
  obtain ⟨a1, b1⟩ := k1
  obtain ⟨a2, b2⟩ := k2
  simp only at h1 h2
  rw [scalarBeq_eq _ _ h1, scalarBeq_eq _ _ h2]

/-- Python `==`-normalisation preserves the numeric view of a value. -/
theorem pyNumVal_norm (v : JVal) : pyNumVal (pyNorm v) = pyNumVal v := by
  cases v <;> simp [pyNorm, pyNumVal]

/-- A receiver on which one `get` succeeded is a dict, so every other `get`
succeeds as well. -/
theorem pyGet_obj_ok (e : JVal) (k : String) (d v : JVal)
    (h : pyGet e k d = .ok v) (k' : String) (d' : JVal) :
    ∃ v', pyGet e k' d' = .ok v' := by
  cases e with
  | obj fs =>
    cases hf : fs.find? (fun p => p.1 = k') with
    | none => exact ⟨d', by simp [pyGet, hf]⟩
    | some p => exact ⟨p.2, by simp [pyGet, hf]⟩
  | null => simp [pyGet] at h
  | bool b => simp [pyGet] at h
  | num q => simp [pyGet] at h
  | str s => simp [pyGet] at h
  | arr xs => simp [pyGet] at h

/-- Inversion of a defined key: the entry's field reads succeed, both
components are hashable, and the key is their normalised pair. -/
theorem keyOf_inv (b : JVal) (k : JVal × JVal) (hk : keyOf b = some k) :
    ∃ v m, pyGet b ("line") (.num 0) = .ok v ∧
      pyGet b ("message") (.str "") = .ok m ∧
      (v.hashable && m.hashable) = true ∧ k = (pyNorm v, pyNorm m) := by
  rw [keyOf] at hk
  cases hv : pyGet b ("line") (.num 0) with
  | error err => simp only [hv] at hk; cases hk
  | ok v =>
    cases hm : pyGet b ("message") (.str "") with
    | error err => simp only [hv, hm] at hk; cases hk
    | ok m =>
      simp only [hv, hm] at hk
      by_cases hh : (v.hashable && m.hashable) = true
      · rw [if_pos hh] at hk
        injection hk with hk'
        exact ⟨v, m, rfl, rfl, hh, hk'.symm⟩
      · rw [if_neg hh] at hk; cases hk

/-- Searching for a key skips a head entry that does not bear it. -/
theorem firstWithKey_cons_skip (e : JVal) (rest : List JVal) (k : JVal × JVal)
    (hpe : keyMatches k e = false) :
    firstWithKey (e :: rest) k = firstWithKey rest k := by
  rw [firstWithKey, firstWithKey]
  exact List.find?_cons_of_neg _ (by simp [hpe])

/-- Searching for a key stops at a head entry that bears it. -/
theorem firstWithKey_cons_self (e : JVal) (rest : List JVal) (k : JVal × JVal)
    (hpe : keyMatches k e = true) :
    firstWithKey (e :: rest) k = some e := by
  rw [firstWithKey]
  exact List.find?_cons_of_pos _ hpe

/-- An entry skipped by the range check never bears the key of a retained
finding: the key determines the numeric line value, and the two range
outcomes would contradict each other. -/
theorem skipped_key_not_retained (t : ℚ) (line m : JVal) (q : ℚ)
    (hq : pyNumVal line = some q) (hr : q < 1 ∨ q > t)
    (b : JVal) (k : JVal × JVal) (hkb : keyOf b = some k)
    (hlok : entryLineOk t b) :
    pairBeq (pyNorm line, pyNorm m) k = false := by
  cases hx : pairBeq (pyNorm line, pyNorm m) k with
  | false => rfl
  | true =>
    exfalso
    have hkeq := pairBeq_eq _ _ hx
    obtain ⟨vb, mb, hbv, hbm, hbh, hkdef⟩ := keyOf_inv b k hkb
    obtain ⟨v', q', hbv', hbq', hq1, hq2⟩ := hlok
    have hveq : vb = v' := Except.ok.inj (hbv.symm.trans hbv')
    have hcomb : (pyNorm line, pyNorm m) = (pyNorm vb, pyNorm mb) :=
      hkeq.trans hkdef
    have hfst : pyNorm line = pyNorm vb := congrArg Prod.fst hcomb
    have hnum : pyNumVal line = pyNumVal vb := by
      rw [← pyNumVal_norm line, ← pyNumVal_norm vb, hfst]
    rw [hq, hveq, hbq'] at hnum
    have hqq : q = q' := Option.some.inj hnum
    rcases hr with hlt | hgt
    · rw [hqq] at hlt; linarith
    · rw [hqq] at hgt; linarith

/-- First-occurrence-wins invariant of the validation loop: every finding
the loop retains beyond the incoming accumulator bears a key that was not
yet seen, lies in range, and — decisively — is the *first* entry of the
remaining input bearing that key.  Skipped entries can never carry the key
of a retained one: out-of-range entries disagree with it on the numeric
line, and duplicate-skipped entries have their key in `seen`. -/
theorem validateLoop_firstWins (t : ℚ) :
    ∀ (errs : List JVal) (seen : List (JVal × JVal)) (acc out : List JVal),
      validateLoop t errs seen acc = .ok out →
      ∃ tail, out = acc.reverse ++ tail ∧
        ∀ b ∈ tail, ∃ k, keyOf b = some k ∧ keyMem k seen = false ∧
          entryLineOk t b ∧ firstWithKey errs k = some b := by
  intro errs
  induction errs with
  | nil =>
    intro seen acc out h
    simp only [validateLoop, Except.ok.injEq] at h
    exact ⟨[], by simp [h], by simp⟩
  | cons e rest ih =>
    intro seen acc out h
    rw [validateLoop] at h
    cases hg : pyGet e ("line") (.num 0) with
    | error err => simp only [hg] at h; cases h
    | ok line =>
      simp only [hg] at h
      cases hq : pyNumVal line with
      | none => simp only [hq] at h; cases h
      | some q =>
        simp only [hq] at h
        by_cases hr : q < 1 ∨ q > t
        · rw [if_pos hr] at h
          obtain ⟨tail, ho, hP⟩ := ih seen acc out h
          refine ⟨tail, ho, ?_⟩
          intro b hb
          obtain ⟨k, hkb, hkm, hlok, hfw⟩ := hP b hb
          refine ⟨k, hkb, hkm, hlok, ?_⟩
          obtain ⟨m, hm⟩ :=
            pyGet_obj_ok e ("line") (.num 0) line hg ("message") (.str "")
          by_cases hh : (line.hashable && m.hashable) = true
          · have hke : keyOf e = some (pyNorm line, pyNorm m) := by
              simp [keyOf, hg, hm, hh]
            have hpb : pairBeq (pyNorm line, pyNorm m) k = false :=
              skipped_key_not_retained t line m q hq hr b k hkb hlok
            rw [firstWithKey_cons_skip e rest k (by simp [keyMatches, hke, hpb])]
            exact hfw
          · have hke : keyOf e = Option.none := by
              simp [keyOf, hg, hm, hh]
            rw [firstWithKey_cons_skip e rest k (by simp [keyMatches, hke])]
            exact hfw
        · rw [if_neg hr] at h
          have hq1 : 1 ≤ q := le_of_not_lt (fun hx => hr (Or.inl hx))
          have hq2 : q ≤ t := le_of_not_lt (fun hx => hr (Or.inr hx))
          cases hm : pyGet e ("message") (.str "") with
          | error err => simp only [hm] at h; cases h
          | ok msg =>
            simp only [hm] at h
            by_cases hh : (line.hashable && msg.hashable) = true
            · rw [if_pos hh] at h
              have hke : keyOf e = some (pyNorm line, pyNorm msg) := by
                simp [keyOf, hg, hm, hh]
              have heOk : entryLineOk t e := ⟨line, q, hg, hq, hq1, hq2⟩
              by_cases hk : keyMem (pyNorm line, pyNorm msg) seen = true
              · rw [if_pos hk] at h
                obtain ⟨tail, ho, hP⟩ := ih seen acc out h
                refine ⟨tail, ho, ?_⟩
                intro b hb
                obtain ⟨k, hkb, hkm, hlok, hfw⟩ := hP b hb
                refine ⟨k, hkb, hkm, hlok, ?_⟩
                have hpb : pairBeq (pyNorm line, pyNorm msg) k = false := by
                  cases hx : pairBeq (pyNorm line, pyNorm msg) k with
                  | false => rfl
                  | true =>
                    exfalso
                    have hkeq := pairBeq_eq _ _ hx
                    rw [← hkeq] at hkm
                    rw [hk] at hkm
                    cases hkm
                rw [firstWithKey_cons_skip e rest k (by simp [keyMatches, hke, hpb])]
                exact hfw
              · rw [if_neg hk] at h
                have hkfalse : keyMem (pyNorm line, pyNorm msg) seen = false :=
                  Bool.eq_false_iff.mpr hk
                have hself : firstWithKey (e :: rest) (pyNorm line, pyNorm msg) =
                    some e :=
                  firstWithKey_cons_self e rest _
                    (by simp [keyMatches, hke, pairBeq_norm_refl line msg hh])
                by_cases hlen : 10 ≤ (e :: acc).length
                · rw [if_pos hlen] at h
                  simp only [Except.ok.injEq] at h
                  refine ⟨[e], by simp [← h], ?_⟩
                  intro b hb
                  rw [List.mem_singleton] at hb
                  subst hb
                  exact ⟨(pyNorm line, pyNorm msg), hke, hkfalse, heOk, hself⟩
                · rw [if_neg hlen] at h
                  obtain ⟨tail, ho, hP⟩ :=
                    ih ((pyNorm line, pyNorm msg) :: seen) (e :: acc) out h
                  refine ⟨e :: tail, by simp [ho], ?_⟩
                  intro b hb
                  rcases List.mem_cons.mp hb with rfl | hbt
                  · exact ⟨(pyNorm line, pyNorm msg), hke, hkfalse, heOk, hself⟩
                  · obtain ⟨k, hkb, hkm, hlok, hfw⟩ := hP b hbt
                    rw [keyMem, List.any_cons] at hkm
                    obtain ⟨hpb, hrest⟩ :
                        pairBeq (pyNorm line, pyNorm msg) k = false ∧
                        (seen.any fun s => pairBeq s k) = false := by
                      constructor
                      · cases hy : pairBeq (pyNorm line, pyNorm msg) k with
                        | false => rfl
                        | true => rw [hy] at hkm; simp at hkm
                      · cases hy : (seen.any fun s => pairBeq s k) with
                        | false => rfl
                        | true => rw [hy] at hkm; simp at hkm
                    refine ⟨k, hkb, ?_, hlok, ?_⟩
                    · rw [keyMem]; exact hrest
                    · rw [firstWithKey_cons_skip e rest k
                        (by simp [keyMatches, hke, hpb])]
                      exact hfw
            · rw [if_neg hh] at h; cases h

/-! ## Claim theorems -/

/-- C1 (counterexample): there is no result cache in `analyze_code` — each
of two consecutive `/analyze` calls with the identical non-blank submission
invokes the reasoning engine once, so the pair makes two engine calls, not
at most one per distinct content; the claim that the second call makes no
collaborator invocation is false. -/
theorem c1_counterexample :
    (analyze_code engEmptyErrors ("x = 1")).enginePrompts.length = 1 ∧
    (analyze_code engEmptyErrors ("x = 1")).enginePrompts.length +
      (analyze_code engEmptyErrors ("x = 1")).enginePrompts.length = 2 := by
  constructor <;> rfl

/-- C1 (amended): every `/analyze` call with non-blank text invokes the
reasoning engine exactly once (there is no memoisation), and two calls
return identical responses whenever the engine answers the repeated prompt
identically, because the post-processing is deterministic. -/
theorem c1_amended_engine_invoked_every_call (e1 e2 : String → String)
    (code : String) (hb : pyStrip code ≠ "")
    (hresp : e1 (analyzeUserPrompt code) = e2 (analyzeUserPrompt code)) :
    (analyze_code e1 code).enginePrompts.length = 1 ∧
    (analyze_code e1 code).response = (analyze_code e2 code).response := by
  constructor
  · rw [analyze_code, if_neg hb]
    cases hj : jsonLoads (e1 (analyzeUserPrompt code)) with
    | error e => simp only [hj]; rfl
    | ok r =>
      simp only [hj]
      cases hp : analyzePost r (mkRat (numLines code) 1) with
      | error e => simp only [hp]; rfl
      | ok v => simp only [hp]; rfl
  · rw [analyze_code, analyze_code, if_neg hb, if_neg hb, hresp]

/-- C1 (witness): the amended statement at the submission `"x = 1"` and an
engine answering `{"errors": []}`. -/
theorem c1_amended_engine_invoked_every_call_witness :
    (pyStrip ("x = 1") ≠ "" ∧
     engEmptyErrors (analyzeUserPrompt ("x = 1")) =
       engEmptyErrors (analyzeUserPrompt ("x = 1"))) ∧
    ((analyze_code engEmptyErrors ("x = 1")).enginePrompts.length = 1 ∧
     (analyze_code engEmptyErrors ("x = 1")).response =
       (analyze_code engEmptyErrors ("x = 1")).response) :=
  ⟨⟨by decide, rfl⟩,
   c1_amended_engine_invoked_every_call engEmptyErrors engEmptyErrors
     ("x = 1") (by decide) rfl⟩

/-- C2 (code bug): a single malformed entry whose `line` is the string
`"two"` makes `line < 1` raise `TypeError`, the blanket `except Exception`
turns the whole `/analyze` request into an HTTP 500, and the well-formed
finding in the same batch is lost; with the malformed entry removed the
same request succeeds and returns the valid finding.  The claim (and the
code's own comment "Skip invalid line numbers") says the bad entry is
skipped and the rest returned. -/
theorem c2_malformed_entry_aborts_batch :
    statusOf (analyze_code engBadLineType ("x = 1\ny = 2")).response = some 500 ∧
    (analyze_code engOneFinding ("x = 1\ny = 2")).response =
      .ok (.obj [(("errors"),
        .arr [.obj [(("line"), .num 1), (("message"), .str "ok")]])]) := by
  constructor <;> rfl

/-- C3 (code bug): a `/fix` request naming line 7 of a two-line file is
answered with HTTP 500 `"Fix generation failed: 400: Invalid line number:
7"`, not with the intended 400 client error: the `HTTPException(400)` is
raised inside the `try` block and swallowed by `except Exception`, which
re-raises it as a generic 500 upstream-style failure.  No engine call is
made. -/
theorem c3_out_of_range_line_yields_500 :
    (fix_vulnerability engFixGood bodyLine7).response =
      .error (500, ("Fix generation failed: 400: Invalid line number: 7")) ∧
    isClientError (fix_vulnerability engFixGood bodyLine7).response = false ∧
    (fix_vulnerability engFixGood bodyLine7).enginePrompts = [] := by
  refine ⟨rfl, rfl, rfl⟩

/-- C4 (counterexample): an engine response that is valid JSON but lacks
the `errors` key — here `{"version": 2}` — is returned to the caller
verbatim as a 200 success, not surfaced as an internal failure: the
unvalidated engine data is fully trusted. -/
theorem c4_counterexample :
    (analyze_code engNoErrorsKey ("x = 1")).response =
      .ok (.obj [(("version"), .num 2)]) ∧
    statusOf (analyze_code engNoErrorsKey ("x = 1")).response = Option.none := by
  constructor <;> rfl

/-- C4 (amended): for every `/analyze` call whose engine response parses as
JSON without a top-level `errors` key, the parsed value is returned to the
caller unchanged as a successful result; validation happens only under the
`errors` key. -/
theorem c4_amended_missing_errors_key_passthrough (engine : String → String)
    (code : String) (result : JVal) (hb : pyStrip code ≠ "")
    (hjson : jsonLoads (engine (analyzeUserPrompt code)) = .ok result)
    (hkey : pyContainsKey result ("errors") = .ok false) :
    (analyze_code engine code).response = .ok result := by
  rw [analyze_code, if_neg hb]
  simp only [hjson]
  rw [analyzePost]
  simp only [hkey]

/-- C4 (witness): the amended statement at the submission `"y = 2"` and an
engine answering `{"version": 2}`. -/
theorem c4_amended_missing_errors_key_passthrough_witness :
    (pyStrip ("y = 2") ≠ "" ∧
     jsonLoads (engNoErrorsKey (analyzeUserPrompt ("y = 2"))) =
       .ok (.obj [(("version"), .num 2)]) ∧
     pyContainsKey (JVal.obj [(("version"), .num 2)]) ("errors") = .ok false) ∧
    (analyze_code engNoErrorsKey ("y = 2")).response =
      .ok (.obj [(("version"), .num 2)]) :=
  ⟨⟨by decide, rfl, rfl⟩,
   c4_amended_missing_errors_key_passthrough engNoErrorsKey ("y = 2")
     (.obj [(("version"), .num 2)]) (by decide) rfl rfl⟩

/-- C5 (counterexample): the entry whose line is the non-integral number
`5/2 = 2.5` passes the range check against five total lines and is
retained, so a retained finding's line value need not be an integer. -/
theorem c5_counterexample :
    validateErrors [entryHalf] (mkRat 5 1) = .ok [entryHalf] ∧
    (mkRat 5 2).den ≠ 1 := by
  constructor
  · rfl
  · decide

/-- C5 (amended): for every validator input and every totalLines, every
finding in the validator's output has a line value that is numerically
within `[1, totalLines]` under Python comparison (the value may be
fractional or boolean, not necessarily an integer); out-of-range entries
are dropped silently, never surfaced as an error. -/
theorem c5_amended_line_numeric_bounds (errs : List JVal) (t : ℚ)
    (out : List JVal) (h : validateErrors errs t = .ok out) :
    ∀ e ∈ out, entryLineOk t e :=
  validateLoop_lineOk t errs [] [] out h (by simp)

/-- C5 (witness): the amended statement on the input holding the `2.5`-line
entry and an out-of-range entry, with five total lines. -/
theorem c5_amended_line_numeric_bounds_witness :
    validateErrors [entryHalf, entryZero] (mkRat 5 1) = .ok [entryHalf] ∧
    (∀ e ∈ [entryHalf], entryLineOk (mkRat 5 1) e) :=
  ⟨rfl, c5_amended_line_numeric_bounds [entryHalf, entryZero] (mkRat 5 1)
    [entryHalf] rfl⟩

/-- C6 (counterexample): two findings with the identical `(line, message)`
pair whose shared line `0` is out of range are *both* dropped — the output
retains zero of them, not exactly one. -/
theorem c6_counterexample :
    validateErrors [entryZero, entryZero] (mkRat 5 1) = .ok [] := by rfl

/-- C6 (amended): for every validator input containing findings with an
identical `(line, message)` pair, the output retains at most one of them,
and when one is retained it is the first occurrence in input order: every
retained finding equals the *first* input entry bearing its key.  The
relative order of all retained findings equals their original order (the
output is a subsequence of the input), and retained keys are pairwise
distinct. -/
theorem c6_amended_duplicate_suppression (errs : List JVal) (t : ℚ)
    (out : List JVal) (h : validateErrors errs t = .ok out) :
    out.Sublist errs ∧ out.Pairwise (fun a b => keyOf a ≠ keyOf b) ∧
    ∀ b ∈ out, ∀ k, keyOf b = some k → firstWithKey errs k = some b := by
  refine ⟨?_, ?_, ?_⟩
  · obtain ⟨tail, hout, hsub⟩ := validateLoop_sublist t errs [] [] out h
    rw [hout]
    simpa using hsub
  · exact validateLoop_keys_distinct t errs [] [] out h (by simp) (by simp)
      (by simp)
  · obtain ⟨tail, hout, hP⟩ := validateLoop_firstWins t errs [] [] out h
    intro b hb k hk
    have hbt : b ∈ tail := by
      rw [hout] at hb
      simpa using hb
    obtain ⟨k', hk', -, -, hfw⟩ := hP b hbt
    rw [hk] at hk'
    rw [Option.some.inj hk']
    exact hfw

/-- C6 (witness): the amended statement on a batch holding two distinct
entries with the same `(line, message)` key: only the first occurrence
survives, and it is what `firstWithKey` designates. -/
theorem c6_amended_duplicate_suppression_witness :
    validateErrors [entryOne, entryOneTagged] (mkRat 3 1) = .ok [entryOne] ∧
    ([entryOne].Sublist [entryOne, entryOneTagged] ∧
     [entryOne].Pairwise (fun a b => keyOf a ≠ keyOf b) ∧
     ∀ b ∈ [entryOne], ∀ k, keyOf b = some k →
       firstWithKey [entryOne, entryOneTagged] k = some b) :=
  ⟨rfl, c6_amended_duplicate_suppression [entryOne, entryOneTagged]
    (mkRat 3 1) [entryOne] rfl⟩

/-- C7 (counterexample): a batch that contains eleven pairwise-distinct
valid findings but starts with an entry whose line is a string does not
yield ten findings — the whole request aborts with a `TypeError` (HTTP
500), so "more than 10 valid findings implies output length exactly 10"
fails as stated. -/
theorem c7_counterexample :
    validateErrors (entryBadLine :: goodsEleven) (mkRat 20 1) =
      .error (.typeError ("not supported between instances of str and int")) ∧
    validFindings goodsEleven (mkRat 20 1) = .ok goodsEleven ∧
    goodsEleven.length = 11 := by
  refine ⟨rfl, rfl, rfl⟩

/-- C7 (amended): for every validator input that the loop processes without
raising and that contains more than ten valid (in-range, first-occurrence)
findings, the output is exactly the first ten valid findings in order of
first appearance — length exactly 10, later findings dropped even when
distinct. -/
theorem c7_amended_cap_first_ten (errs : List JVal) (t : ℚ)
    (out : List JVal) (hok : validFindings errs t = .ok out)
    (hlen : 10 < out.length) :
    validateErrors errs t = .ok (out.take 10) ∧ (out.take 10).length = 10 := by
  refine ⟨validateLoop_eq_take t errs [] [] out hok (by simp), ?_⟩
  rw [List.length_take]
  omega

/-- C7 (witness): the amended statement on the batch of eleven distinct
valid findings. -/
theorem c7_amended_cap_first_ten_witness :
    (validFindings goodsEleven (mkRat 20 1) = .ok goodsEleven ∧
     10 < goodsEleven.length) ∧
    (validateErrors goodsEleven (mkRat 20 1) = .ok (goodsEleven.take 10) ∧
     (goodsEleven.take 10).length = 10) :=
  ⟨⟨rfl, by decide⟩,
   c7_amended_cap_first_ten goodsEleven (mkRat 20 1) goodsEleven rfl
     (by decide)⟩

/-- C8 (counterexample): ten leading blank lines hide a requirements line
from the classifier: the claim-side rule over the first ten *non-empty*
lines matches, yet the code classifies the text as `none`, because the
code inspects the first ten physical lines. -/
theorem c8_counterexample :
    classify blankThenReq = ManifestClass.none ∧
    claimPyReqRule blankThenReq = true := by
  constructor <;> rfl

/-- C8 (amended): the classifier evaluates its rules in the fixed priority
order (package-manifest, python-requirements, go-module, ruby-gemfile,
none) with first match winning, and the python-requirements rule matches
iff one of the first ten physical lines — empty lines included — starts,
after stripping, with one or more characters from `[A-Za-z0-9_-]` followed
by one of `= < > !` (no version text required): the embedded code equals
the rule-table evaluation `specClassify` on every input. -/
theorem c8_amended_classifier_refines_spec (code : String) :
    classify code = specClassify code := by
  simp only [classify, specClassify, specRules, firstMatch, specPyReqRule,
    reqLineMatch_eq]

/-- C9 (counterexample): a valid fix payload wrapped in Markdown code
fences is not stripped: `json.loads` fails on the raw fenced content and
the `/fix` request is answered with HTTP 500, although the identical
payload without fences parses successfully. -/
theorem c9_counterexample :
    (fix_vulnerability engFenced bodyFence).response =
      .error (500, ("Fix generation failed: Expecting value")) ∧
    jsonLoads fixPayloadBare =
      .ok (.obj [(("fixed_code"), .str "x"), (("explanation"), .str "y")]) := by
  constructor <;> rfl

/-- C9 (amended): for every well-formed `/fix` request whose engine reply
begins with a Markdown code fence, no stripping occurs before structural
parsing: the raw reply is fed to `json.loads`, parsing fails on the
leading backtick, and the request is surfaced as a generic 500 failure
after exactly one engine call. -/
theorem c9_amended_fenced_response_fails (engine : String → String)
    (body : FixRequest) (tail : String)
    (hcode : pyStrip body.original_code ≠ "")
    (hdesc : body.vulnerability_description ≠ "")
    (hcond : ¬(fixLineIdx body.vulnerability_line < 0 ∨
      ((pySplitLines body.original_code).length : Int) ≤
        fixLineIdx body.vulnerability_line))
    (heng : engine (fixUserPrompt body) = ("```") ++ tail) :
    statusOf (fix_vulnerability engine body).response = some 500 ∧
    (fix_vulnerability engine body).enginePrompts = [fixUserPrompt body] := by
  have hne1 : ¬(body.original_code = "" ∨ pyStrip body.original_code = "") := by
    rintro (h | h)
    · exact hcode (by rw [h]; rfl)
    · exact hcode h
  have htry : fixTryBody engine body =
      (.error (.jsonDecodeError ("Expecting value")), [fixUserPrompt body]) := by
    simp only [fixTryBody]
    rw [if_neg hcond, heng, jsonLoads_fenced]
  constructor <;> (rw [fix_vulnerability, if_neg hne1, if_neg hdesc, htry]; try rfl)

/-- C9 (witness): the amended statement at the fenced-reply engine and the
two-line injection fixture. -/
theorem c9_amended_fenced_response_fails_witness :
    (pyStrip bodyFence.original_code ≠ "" ∧
     bodyFence.vulnerability_description ≠ "" ∧
     ¬(fixLineIdx bodyFence.vulnerability_line < 0 ∨
       ((pySplitLines bodyFence.original_code).length : Int) ≤
         fixLineIdx bodyFence.vulnerability_line) ∧
     engFenced (fixUserPrompt bodyFence) =
       ("```") ++ ("json\n\x7b\"fixed_code\": \"x\", \"explanation\": \"y\"\x7d\n```")) ∧
    (statusOf (fix_vulnerability engFenced bodyFence).response = some 500 ∧
     (fix_vulnerability engFenced bodyFence).enginePrompts =
       [fixUserPrompt bodyFence]) :=
  ⟨⟨by decide, by decide, by decide, rfl⟩,
   c9_amended_fenced_response_fails engFenced bodyFence
     ("json\n\x7b\"fixed_code\": \"x\", \"explanation\": \"y\"\x7d\n```")
     (by decide) (by decide) (by decide) rfl⟩

/-- C10: a `/fix` request with non-blank code and a description but no
`vulnerability_line` (absent, and likewise the value 0) is not rejected:
`(None or 1) - 1` makes the vulnerable index 0, the engine is invoked once
with the prompt built for line 1, and with a well-formed engine reply the
fix is returned successfully. -/
theorem c10_fix_defaults_to_line_one (engine : String → String)
    (body : FixRequest) (f ex : String)
    (hcode : pyStrip body.original_code ≠ "")
    (hdesc : body.vulnerability_description ≠ "")
    (hline : body.vulnerability_line = Option.none ∨
      body.vulnerability_line = some 0)
    (heng : jsonLoads (engine (fixUserPrompt body)) =
      .ok (.obj [(("fixed_code"), .str f), (("explanation"), .str ex)])) :
    fixLineIdx body.vulnerability_line = 0 ∧
    (fix_vulnerability engine body).enginePrompts = [fixUserPrompt body] ∧
    (fix_vulnerability engine body).response = .ok ⟨f, ex⟩ := by
  have hidx : fixLineIdx body.vulnerability_line = 0 := by
    rcases hline with h | h <;> rw [h] <;> rfl
  have hne1 : ¬(body.original_code = "" ∨ pyStrip body.original_code = "") := by
    rintro (h | h)
    · exact hcode (by rw [h]; rfl)
    · exact hcode h
  have hlenpos : 0 < (pySplitLines body.original_code).length :=
    pySplitLines_length_pos _
  have hcond : ¬(fixLineIdx body.vulnerability_line < 0 ∨
      ((pySplitLines body.original_code).length : Int) ≤
        fixLineIdx body.vulnerability_line) := by
    rw [hidx]
    rintro (h | h)
    · exact absurd h (lt_irrefl 0)
    · omega
  have htry : fixTryBody engine body = (.ok ⟨f, ex⟩, [fixUserPrompt body]) := by
    simp only [fixTryBody]
    rw [if_neg hcond, heng]
    rfl
  refine ⟨hidx, ?_, ?_⟩ <;> rw [fix_vulnerability, if_neg hne1, if_neg hdesc, htry]

/-- C10 (witness): the statement at the no-line fixture and the well-formed
engine double. -/
theorem c10_fix_defaults_to_line_one_witness :
    (pyStrip bodyNoLine.original_code ≠ "" ∧
     bodyNoLine.vulnerability_description ≠ "" ∧
     (bodyNoLine.vulnerability_line = Option.none ∨
      bodyNoLine.vulnerability_line = some 0) ∧
     jsonLoads (engFixGood (fixUserPrompt bodyNoLine)) =
       .ok (.obj [(("fixed_code"), .str "q = sanitize(s)"),
         (("explanation"), .str "escaped")])) ∧
    (fixLineIdx bodyNoLine.vulnerability_line = 0 ∧
     (fix_vulnerability engFixGood bodyNoLine).enginePrompts =
       [fixUserPrompt bodyNoLine] ∧
     (fix_vulnerability engFixGood bodyNoLine).response =
       .ok ⟨"q = sanitize(s)", "escaped"⟩) :=
  ⟨⟨by decide, by decide, Or.inl rfl, rfl⟩,
   c10_fix_defaults_to_line_one engFixGood bodyNoLine ("q = sanitize(s)")
     ("escaped") (by decide) (by decide) (Or.inl rfl) rfl⟩
